import Mathlib

/-!
Formal model of the multi-provider block-explorer engine
(src/unnamed/part_000 of javascript-opentimestamps): the block-info
response normalizers of the two provider families, the `MultiExplorer`
constructor, and the consensus rule that `MultiExplorer.blockhash` and
`MultiExplorer.block` apply to the settled per-adapter outcomes.
-/

namespace ChainExplorer

/-- A JSON value as it can appear as a per-adapter query answer:
`null`, an integer number, a string, or the canonical block-info object
with a `merkleroot` and a `time` field built by the block-info
normalizers (string merkle root, integer unix time).  This is the value
domain the aggregator filters, compares and serialises. -/
inductive JSValue where
  | null : JSValue
  | num (n : Int) : JSValue
  | str (s : String) : JSValue
  | info (merkleroot : String) (time : Int) : JSValue
deriving DecidableEq, Repr

/-- JavaScript truthiness on `JSValue`: `null`, `0` and the empty string
are falsy, every other value (objects in particular) is truthy. -/
def truthy : JSValue → Bool
  | .null => false
  | .num n => n != 0
  | .str s => s != ""
  | .info _ _ => true

/-- Decimal rendering of a natural number, the way `JSON.stringify`
renders a non-negative integer. -/
def renderNat (n : Nat) : List Char :=
  if n = 0 then ['0'] else (Nat.digits 10 n).reverse.map Nat.digitChar

/-- Decimal rendering of an integer, the way `JSON.stringify` renders
it. -/
def renderInt : Int → List Char
  | .ofNat n => renderNat n
  | .negSucc n => '-' :: renderNat (n + 1)

/-- JSON escaping of one string character; of the characters at hand
only the quote and the backslash are escaped. -/
def escChar (c : Char) : List Char :=
  if c = '\\' ∨ c = '"' then ['\\', c] else [c]

/-- JSON string escaping, applied by `JSON.stringify` to the characters
of a string. -/
def escape : List Char → List Char
  | [] => []
  | c :: cs => escChar c ++ escape cs

/-- The opening characters of the serialized block-info object: the
opening brace, the quoted `merkleroot` key, the colon and the opening
quote of its value. -/
def infoPrefix : List Char :=
  ['\x7b', '"', 'm', 'e', 'r', 'k', 'l', 'e', 'r', 'o', 'o', 't', '"', ':', '"']

/-- The characters between the closing quote of the merkle root and the
`time` value: the comma, the quoted `time` key and the colon. -/
def infoSepTail : List Char := [',', '"', 't', 'i', 'm', 'e', '"', ':']

/-- The characters from the closing quote of the merkle-root value up
to the `time` value. -/
def infoSep : List Char := '"' :: infoSepTail

/-- The characters of `JSON.stringify v` for values of our domain:
`null`, decimal integers, quoted escaped strings, and the two-field
block-info object rendered with its keys in construction order. -/
def stringifyChars : JSValue → List Char
  | .null => ['n', 'u', 'l', 'l']
  | .num i => renderInt i
  | .str s => '"' :: (escape s.data ++ ['"'])
  | .info m t => infoPrefix ++ (escape m.data ++ (infoSep ++ (renderInt t ++ ['\x7d'])))

/-- Modelled from the spec: `Utils.softFail` (from src/utils.js, which
is not among the sources) settles each fanned-out adapter promise,
capturing a rejection as a resolved `Error` value so that one failing
provider cannot abort the join.  A settled outcome is therefore either
the adapter's resolved JSON value or an `Error` object. -/
inductive Settled where
  | val (v : JSValue) : Settled
  | err : Settled
deriving DecidableEq, Repr

/-- The filter the aggregator applies to one settled outcome, from
`result && !(result instanceof Error)`: an `Error` is discarded, and a
resolved value is kept exactly when it is truthy. -/
def usable : Settled → Option JSValue
  | .val v => if truthy v then some v else none
  | .err => none

/-- Insertion into the JS `Set` of serialized answers: the value is
added unless a value with the same `JSON.stringify` image is already
present.  The set is modelled as the list of first-inserted values in
insertion order, keyed by `stringifyChars`; since `JSON.parse` inverts
`JSON.stringify` on this domain (`stringifyChars` is injective, proved
below), keeping the inserted value instead of its serialization is
faithful to `set.add(JSON.stringify(result))` followed by `JSON.parse`
of the stored string. -/
def setInsert (acc : List JSValue) (v : JSValue) : List JSValue :=
  if stringifyChars v ∈ acc.map stringifyChars then acc else acc ++ [v]

/-- The JS `Set` built by `set.add(JSON.stringify(result))` over the
usable results, in insertion order. -/
def jsSet (l : List JSValue) : List JSValue := l.foldl setInsert []

/-- Outcome of one aggregate query: the returned promise either resolves
with a value or rejects with an error message. -/
inductive AggResult where
  | resolved (v : JSValue) : AggResult
  | rejected (msg : String) : AggResult
deriving DecidableEq, Repr

/-- `MultiExplorer.blockhash(height)` once every fanned-out adapter
promise has settled: the truthy non-`Error` results are deduplicated by
their serialization; an empty set rejects (no usable answer), a
singleton set resolves with its lone value, and a larger set rejects
(providers disagree), with the exact messages of the source. -/
def MultiExplorer.blockhash (height : String) (results : List Settled) : AggResult :=
  match jsSet (results.filterMap usable) with
  | [] => .rejected ("No block height " ++ height ++ "found")
  | [v] => .resolved v
  | _ :: _ :: _ => .rejected ("Different block height " ++ height ++ "found")

/-- `MultiExplorer.block(hash)` once every fanned-out adapter promise
has settled: same decision rule as `MultiExplorer.blockhash`, with the
block-hash messages of the source. -/
def MultiExplorer.block (hash : String) (results : List Settled) : AggResult :=
  match jsSet (results.filterMap usable) with
  | [] => .rejected ("No block hash " ++ hash ++ "found")
  | [v] => .resolved v
  | _ :: _ :: _ => .rejected ("Different block hash " ++ hash ++ "found")

/-- Canonical block info: both fields are always present. -/
structure BlockInfo where
  merkleroot : String
  time : Int
deriving DecidableEq, Repr

/-- Raw family-A (insight) block-info body; either field may be absent
(`none` models JavaScript `undefined`). -/
structure InsightInfoBody where
  merkleroot : Option String
  time : Option Int
deriving DecidableEq, Repr

/-- Raw family-B (blockstream) block-info body. -/
structure BlockstreamInfoBody where
  merkle_root : Option String
  timestamp : Option Int
deriving DecidableEq, Repr

/-- `ChainInsight.parseBlockInfo`: an absent or falsy body, or a missing
or falsy `merkleroot` or `time` field, rejects with the Insight error;
otherwise the canonical pair is resolved.  The falsy string is `""` and
the falsy number is `0`. -/
def ChainInsight.parseBlockInfo : Option InsightInfoBody → Except String BlockInfo
  | none => .error "Insight response error body "
  | some b =>
      match b.merkleroot, b.time with
      | some m, some t =>
          if m = "" ∨ t = 0 then .error "Insight response error body "
          else .ok ⟨m, t⟩
      | some _, none => .error "Insight response error body "
      | none, _ => .error "Insight response error body "

/-- `Blockstream.parseBlockInfo`: same shape as the Insight normalizer,
over the family-B field names `merkle_root` and `timestamp`, with the
Blockstream error message. -/
def Blockstream.parseBlockInfo : Option BlockstreamInfoBody → Except String BlockInfo
  | none => .error "Blockstream response error body "
  | some b =>
      match b.merkle_root, b.timestamp with
      | some m, some t =>
          if m = "" ∨ t = 0 then .error "Blockstream response error body "
          else .ok ⟨m, t⟩
      | some _, none => .error "Blockstream response error body "
      | none, _ => .error "Blockstream response error body "

/-- Whether a JSON value is a string (`typeof x === 'string'`). -/
def JSValue.isStr : JSValue → Bool
  | .str _ => true
  | _ => false

/-- The two provider families implemented by the source. -/
inductive ExplorerKind where
  | insight : ExplorerKind
  | blockstream : ExplorerKind
deriving DecidableEq, Repr

/-- State of one constructed explorer adapter: which family's parse
methods it dispatches to, the two derived endpoint URLs, and the
timeout in milliseconds. -/
structure ExplorerAdapter where
  kind : ExplorerKind
  urlBlockindex : String
  urlBlock : String
  timeout : Int
deriving DecidableEq, Repr

/-- `new ChainInsight(url, timeout)`: family A, with the insight
endpoint suffixes and the timeout converted to milliseconds. -/
def ChainInsight.make (url : String) (timeout : Int) : ExplorerAdapter :=
  ⟨.insight, url ++ "/block-index", url ++ "/block", timeout * 1000⟩

/-- `new Blockstream(url, timeout)`: family B, with the blockstream
endpoint suffixes (each ending in a slash) and the timeout converted to
milliseconds. -/
def Blockstream.make (url : String) (timeout : Int) : ExplorerAdapter :=
  ⟨.blockstream, url ++ "/block-height/", url ++ "/block/", timeout * 1000⟩

/-- One entry of `options.explorers`: its `url` can be any JSON value
(only strings pass validation) and its `type` may be absent. -/
structure ExplorerSpec where
  url : JSValue
  type : Option String
deriving DecidableEq, Repr

/-- The options object accepted by the `MultiExplorer` constructor; a
`none` field models a property the object does not have. -/
structure MultiOptions where
  chain : Option String
  explorers : Option (List ExplorerSpec)
  timeout : Option Int
deriving DecidableEq, Repr

/-- The registry `publicChainInsightUrls` of default public insight URLs
per chain; an unknown chain has no entry (reading it in JavaScript
yields `undefined`). -/
def publicChainInsightUrls (chain : String) : Option (List String) :=
  if chain = "bitcoin" then
    some ["https://insight.bitpay.com/api",
          "https://btc-bitcore1.trezor.io/api",
          "https://btc-bitcore4.trezor.io/api",
          "https://blockexplorer.com/api",
          "https://bitcore.schmoock.net/insight-api"]
  else if chain = "bitcoinTestnet" then
    some ["https://test-insight.bitpay.com/api",
          "https://testnet.blockexplorer.com/api"]
  else if chain = "litecoin" then
    some ["https://ltc-bitcore1.trezor.io/api",
          "https://insight.litecore.io/api"]
  else none

/-- The default explorer list derived from the registry URLs:
`publicChainInsightUrls[chain].map(u => (url: u, type: 'insight'))`. -/
def defaultExplorerSpecs (urls : List String) : List ExplorerSpec :=
  urls.map fun u => ⟨.str u, some "insight"⟩

/-- The loop body of the constructor for one explorer spec: a
non-string `url` throws `TypeError('URL must be a string')`; otherwise
`explorer.type && explorer.type === 'insight'` selects the insight
adapter and every other `type` (absent, empty or unknown) selects the
blockstream adapter. -/
def MultiExplorer.buildExplorer (timeout : Int) (e : ExplorerSpec) :
    Except String ExplorerAdapter :=
  match e.url with
  | .str u =>
      if e.type = some "insight" then .ok (ChainInsight.make u timeout)
      else .ok (Blockstream.make u timeout)
  | _ => .error "URL must be a string"

/-- `new MultiExplorer(options)`: timeout defaults to 10 and chain to
"bitcoin"; the explicit explorer list is used only when present with
more than one entry, otherwise the registry entry for the chain is
mapped to insight specs (an unknown chain makes that property read
throw).  Each spec is then built in order, failing on the first invalid
one. -/
def MultiExplorer.construct (options : Option MultiOptions) :
    Except String (List ExplorerAdapter) :=
  let timeout : Int :=
    match options with
    | some o => o.timeout.getD 10
    | none => 10
  let chain : String :=
    match options with
    | some o => o.chain.getD "bitcoin"
    | none => "bitcoin"
  let explicit : Option (List ExplorerSpec) :=
    match options with
    | some o =>
        match o.explorers with
        | some l => if l.length > 1 then some l else none
        | none => none
    | none => none
  match explicit with
  | some l => l.mapM (MultiExplorer.buildExplorer timeout)
  | none =>
      match publicChainInsightUrls chain with
      | some urls => (defaultExplorerSpecs urls).mapM (MultiExplorer.buildExplorer timeout)
      | none => .error "TypeError: cannot read the registry entry of an unknown chain"

/-! Injectivity of the serialization: `JSON.stringify` tells any two
distinct values of the domain apart, so deduplicating by serialization
agrees with deduplicating by structural equality. -/

theorem digitChar_inj {a b : Nat} (ha : a < 10) (hb : b < 10)
    (h : Nat.digitChar a = Nat.digitChar b) : a = b := by
  interval_cases a <;> interval_cases b <;> first | rfl | (exfalso; revert h; decide)

theorem digitChar_isDigit {a : Nat} (ha : a < 10) : (Nat.digitChar a).isDigit = true := by
  interval_cases a <;> decide

theorem renderNat_ne_nil (n : Nat) : renderNat n ≠ [] := by
  unfold renderNat
  split
  · simp
  · next hn => simp [Nat.digits_ne_nil_iff_ne_zero, hn]

theorem mem_renderNat_isDigit {n : Nat} {c : Char} (hc : c ∈ renderNat n) :
    c.isDigit = true := by
  unfold renderNat at hc
  split at hc
  · simp at hc
    subst hc
    decide
  · simp only [List.mem_map, List.mem_reverse] at hc
    obtain ⟨d, hd, rfl⟩ := hc
    exact digitChar_isDigit (Nat.digits_lt_base (by norm_num) hd)

theorem map_digitChar_inj : ∀ {l1 l2 : List Nat},
    (∀ d ∈ l1, d < 10) → (∀ d ∈ l2, d < 10) →
    l1.map Nat.digitChar = l2.map Nat.digitChar → l1 = l2
  | [], [], _, _, _ => rfl
  | [], _ :: _, _, _, h => by simp at h
  | _ :: _, [], _, _, h => by simp at h
  | a :: l1, b :: l2, h1, h2, h => by
      simp only [List.map_cons, List.cons.injEq] at h
      have hab : a = b :=
        digitChar_inj (h1 a (List.mem_cons_self _ _)) (h2 b (List.mem_cons_self _ _)) h.1
      subst hab
      rw [map_digitChar_inj (fun d hd => h1 d (List.mem_cons_of_mem _ hd))
        (fun d hd => h2 d (List.mem_cons_of_mem _ hd)) h.2]

theorem renderNat_singleton_zero {m : Nat} (hm : m ≠ 0) (h : renderNat m = ['0']) :
    False := by
  unfold renderNat at h
  rw [if_neg hm] at h
  cases hrev : (Nat.digits 10 m).reverse with
  | nil =>
      rw [hrev] at h
      simp at h
  | cons d l =>
      rw [hrev] at h
      simp only [List.map_cons, List.cons.injEq] at h
      have hl : l = [] := by
        have := congrArg List.length h.2
        simpa using this
      subst hl
      have hdig : Nat.digits 10 m = [d] := by
        have := congrArg List.reverse hrev
        simpa using this
      have hd10 : d < 10 :=
        Nat.digits_lt_base (by norm_num) (by rw [hdig]; exact List.mem_singleton_self d)
      have hd0 : d = 0 := digitChar_inj hd10 (by norm_num) (by rw [h.1]; rfl)
      have hmd : m = d := by
        have h1 := Nat.ofDigits_digits 10 m
        rw [hdig] at h1
        simpa [Nat.ofDigits] using h1.symm
      exact hm (hmd.trans hd0)

theorem renderNat_inj {n m : Nat} (h : renderNat n = renderNat m) : n = m := by
  by_cases hn : n = 0 <;> by_cases hm : m = 0
  · omega
  · exfalso
    apply renderNat_singleton_zero hm
    rw [← h]
    unfold renderNat
    rw [if_pos hn]
  · exfalso
    apply renderNat_singleton_zero hn
    rw [h]
    unfold renderNat
    rw [if_pos hm]
  · unfold renderNat at h
    rw [if_neg hn, if_neg hm] at h
    have hrev := map_digitChar_inj
      (fun d hd => Nat.digits_lt_base (by norm_num) (List.mem_reverse.mp hd))
      (fun d hd => Nat.digits_lt_base (by norm_num) (List.mem_reverse.mp hd)) h
    have hdig : Nat.digits 10 n = Nat.digits 10 m := by
      have := congrArg List.reverse hrev
      simpa using this
    have h1 := Nat.ofDigits_digits 10 n
    rw [hdig, Nat.ofDigits_digits] at h1
    omega

theorem renderInt_ne_nil (i : Int) : renderInt i ≠ [] := by
  cases i with
  | ofNat n => exact renderNat_ne_nil n
  | negSucc n => simp [renderInt]

theorem mem_renderInt {i : Int} {c : Char} (hc : c ∈ renderInt i) :
    c.isDigit = true ∨ c = '-' := by
  cases i with
  | ofNat n => exact Or.inl (mem_renderNat_isDigit hc)
  | negSucc n =>
      rcases List.mem_cons.mp hc with h | h
      · exact Or.inr h
      · exact Or.inl (mem_renderNat_isDigit h)

theorem renderInt_head {i : Int} {c : Char} {r : List Char}
    (h : renderInt i = c :: r) : c.isDigit = true ∨ c = '-' := by
  apply mem_renderInt (i := i)
  rw [h]
  exact List.mem_cons_self _ _

theorem renderNat_head_isDigit {n : Nat} {c : Char} {r : List Char}
    (h : renderNat n = c :: r) : c.isDigit = true := by
  apply mem_renderNat_isDigit (n := n)
  rw [h]
  exact List.mem_cons_self _ _

theorem renderInt_inj {i j : Int} (h : renderInt i = renderInt j) : i = j := by
  cases i with
  | ofNat n =>
      cases j with
      | ofNat m =>
          simp only [renderInt] at h
          exact congrArg Int.ofNat (renderNat_inj h)
      | negSucc m =>
          exfalso
          simp only [renderInt] at h
          cases hn : renderNat n with
          | nil => exact renderNat_ne_nil n hn
          | cons c r =>
              rw [hn] at h
              injection h with h1 _
              have := renderNat_head_isDigit hn
              rw [h1] at this
              exact absurd this (by decide)
  | negSucc n =>
      cases j with
      | ofNat m =>
          exfalso
          simp only [renderInt] at h
          cases hm : renderNat m with
          | nil => exact renderNat_ne_nil m hm
          | cons c r =>
              rw [hm] at h
              injection h with h1 _
              have := renderNat_head_isDigit hm
              rw [← h1] at this
              exact absurd this (by decide)
      | negSucc m =>
          simp only [renderInt] at h
          injection h with _ h2
          have := renderNat_inj h2
          have hnm : n = m := by omega
          rw [hnm]

theorem escChar_plain {c : Char} (hc : ¬(c = '\\' ∨ c = '"')) : escChar c = [c] := by
  unfold escChar
  rw [if_neg hc]

theorem escChar_esc {c : Char} (hc : c = '\\' ∨ c = '"') : escChar c = ['\\', c] := by
  unfold escChar
  rw [if_pos hc]

/-- Unique decodability of the escaped form at a closing quote: inside
an escaped string every quote is preceded by a backslash that begins
its two-character code, so the first quote standing at a code boundary
is unambiguous. -/
theorem escape_quote_split : ∀ (m1 : List Char) {m2 r1 r2 : List Char},
    escape m1 ++ '"' :: r1 = escape m2 ++ '"' :: r2 → m1 = m2 ∧ r1 = r2
  | [], m2, r1, r2, h => by
      cases m2 with
      | nil =>
          simp only [escape, List.nil_append] at h
          injection h with _ h2
          exact ⟨rfl, h2⟩
      | cons c cs =>
          exfalso
          simp only [escape, List.nil_append] at h
          by_cases hc : c = '\\' ∨ c = '"'
          · rw [escChar_esc hc] at h
            simp only [List.cons_append, List.append_assoc] at h
            injection h with h1 _
            exact absurd h1 (by decide)
          · rw [escChar_plain hc] at h
            simp only [List.cons_append, List.append_assoc] at h
            injection h with h1 _
            exact hc (Or.inr h1.symm)
  | c :: cs, m2, r1, r2, h => by
      cases m2 with
      | nil =>
          exfalso
          simp only [escape, List.nil_append] at h
          by_cases hc : c = '\\' ∨ c = '"'
          · rw [escChar_esc hc] at h
            simp only [List.cons_append, List.append_assoc] at h
            injection h with h1 _
            exact absurd h1.symm (by decide)
          · rw [escChar_plain hc] at h
            simp only [List.cons_append, List.append_assoc] at h
            injection h with h1 _
            exact hc (Or.inr h1)
      | cons c' cs' =>
          simp only [escape] at h
          by_cases hc : c = '\\' ∨ c = '"' <;> by_cases hc' : c' = '\\' ∨ c' = '"'
          · rw [escChar_esc hc, escChar_esc hc'] at h
            simp only [List.cons_append, List.append_assoc] at h
            injection h with _ h2
            injection h2 with h2a h2b
            obtain ⟨ha, hb⟩ := escape_quote_split cs h2b
            refine ⟨?_, hb⟩
            rw [h2a, ha]
          · exfalso
            rw [escChar_esc hc, escChar_plain hc'] at h
            simp only [List.cons_append, List.append_assoc] at h
            injection h with h1 _
            exact hc' (Or.inl h1.symm)
          · exfalso
            rw [escChar_plain hc, escChar_esc hc'] at h
            simp only [List.cons_append, List.append_assoc] at h
            injection h with h1 _
            exact hc (Or.inl h1)
          · rw [escChar_plain hc, escChar_plain hc'] at h
            simp only [List.cons_append, List.append_assoc] at h
            injection h with h1 h2
            obtain ⟨ha, hb⟩ := escape_quote_split cs h2
            refine ⟨?_, hb⟩
            rw [h1, ha]

/-- The first serialized character classifies the constructor of the
value. -/
theorem stringify_shape (v : JSValue) :
    ∃ c r, stringifyChars v = c :: r ∧
      match v with
      | .null => c = 'n'
      | .num _ => c.isDigit = true ∨ c = '-'
      | .str _ => c = '"'
      | .info _ _ => c = '\x7b' := by
  cases v with
  | null => exact ⟨'n', _, rfl, rfl⟩
  | num i =>
      cases hr : renderInt i with
      | nil => exact absurd hr (renderInt_ne_nil i)
      | cons c r => exact ⟨c, r, hr, renderInt_head hr⟩
  | str s => exact ⟨'"', _, rfl, rfl⟩
  | info m t =>
      refine ⟨'\x7b', ['"', 'm', 'e', 'r', 'k', 'l', 'e', 'r', 'o', 'o', 't', '"', ':', '"'] ++
        (escape m.data ++ (infoSep ++ (renderInt t ++ ['\x7d']))), ?_, rfl⟩
      simp [stringifyChars, infoPrefix]

theorem stringifyChars_injective {v w : JSValue}
    (h : stringifyChars v = stringifyChars w) : v = w := by
  obtain ⟨c, r, hc, hv⟩ := stringify_shape v
  obtain ⟨c', r', hc', hw⟩ := stringify_shape w
  have h0 := h
  rw [hc, hc'] at h0
  have hcc : c = c' := by injection h0
  subst hcc
  cases v with
  | null =>
      have hv2 : c = 'n' := hv
      subst hv2
      cases w with
      | null => rfl
      | num j =>
          exfalso
          have hw2 : Char.isDigit 'n' = true ∨ 'n' = '-' := hw
          rcases hw2 with hw2 | hw2 <;> exact absurd hw2 (by decide)
      | str s =>
          exfalso
          have hw2 : 'n' = '"' := hw
          exact absurd hw2 (by decide)
      | info m t =>
          exfalso
          have hw2 : 'n' = '\x7b' := hw
          exact absurd hw2 (by decide)
  | num i =>
      cases w with
      | null =>
          exfalso
          have hw2 : c = 'n' := hw
          subst hw2
          have hv2 : Char.isDigit 'n' = true ∨ 'n' = '-' := hv
          rcases hv2 with hv2 | hv2 <;> exact absurd hv2 (by decide)
      | num j =>
          simp only [stringifyChars] at h
          exact congrArg JSValue.num (renderInt_inj h)
      | str s =>
          exfalso
          have hw2 : c = '"' := hw
          subst hw2
          have hv2 : Char.isDigit '"' = true ∨ '"' = '-' := hv
          rcases hv2 with hv2 | hv2 <;> exact absurd hv2 (by decide)
      | info m t =>
          exfalso
          have hw2 : c = '\x7b' := hw
          subst hw2
          have hv2 : Char.isDigit '\x7b' = true ∨ '\x7b' = '-' := hv
          rcases hv2 with hv2 | hv2 <;> exact absurd hv2 (by decide)
  | str s =>
      have hv2 : c = '"' := hv
      subst hv2
      cases w with
      | null =>
          exfalso
          have hw2 : '"' = 'n' := hw
          exact absurd hw2 (by decide)
      | num j =>
          exfalso
          have hw2 : Char.isDigit '"' = true ∨ '"' = '-' := hw
          rcases hw2 with hw2 | hw2 <;> exact absurd hw2 (by decide)
      | str s' =>
          simp only [stringifyChars] at h
          injection h with _ h2
          obtain ⟨hs, _⟩ := escape_quote_split s.data h2
          exact congrArg JSValue.str (String.ext hs)
      | info m t =>
          exfalso
          have hw2 : '"' = '\x7b' := hw
          exact absurd hw2 (by decide)
  | info m t =>
      have hv2 : c = '\x7b' := hv
      subst hv2
      cases w with
      | null =>
          exfalso
          have hw2 : '\x7b' = 'n' := hw
          exact absurd hw2 (by decide)
      | num j =>
          exfalso
          have hw2 : Char.isDigit '\x7b' = true ∨ '\x7b' = '-' := hw
          rcases hw2 with hw2 | hw2 <;> exact absurd hw2 (by decide)
      | str s =>
          exfalso
          have hw2 : '\x7b' = '"' := hw
          exact absurd hw2 (by decide)
      | info m' t' =>
          simp only [stringifyChars] at h
          have hA := List.append_cancel_left h
          simp only [infoSep, List.cons_append] at hA
          obtain ⟨hm, hB⟩ := escape_quote_split m.data hA
          have hC := List.append_cancel_left hB
          have hD := List.append_cancel_right hC
          have hm' : m = m' := String.ext hm
          have ht' : t = t' := renderInt_inj hD
          rw [hm', ht']

/-! Properties of the set of serialized answers built by the
aggregator. -/

theorem setInsert_map_mem (acc : List JSValue) (v : JSValue) {s : List Char} :
    s ∈ (setInsert acc v).map stringifyChars ↔
      s ∈ acc.map stringifyChars ∨ s = stringifyChars v := by
  unfold setInsert
  split
  · next hmem =>
      constructor
      · exact Or.inl
      · rintro (hs | rfl)
        · exact hs
        · exact hmem
  · simp [List.map_append]

theorem foldl_setInsert_map_mem (l : List JSValue) :
    ∀ (acc : List JSValue) (s : List Char),
      s ∈ (l.foldl setInsert acc).map stringifyChars ↔
        s ∈ acc.map stringifyChars ∨ s ∈ l.map stringifyChars := by
  induction l with
  | nil => intro acc s; simp
  | cons v l ih =>
      intro acc s
      rw [List.foldl_cons, ih, setInsert_map_mem]
      simp [or_assoc]

theorem jsSet_map_mem {l : List JSValue} {s : List Char} :
    s ∈ (jsSet l).map stringifyChars ↔ s ∈ l.map stringifyChars := by
  unfold jsSet
  rw [foldl_setInsert_map_mem]
  simp

theorem setInsert_map_nodup {acc : List JSValue} (v : JSValue)
    (h : (acc.map stringifyChars).Nodup) :
    ((setInsert acc v).map stringifyChars).Nodup := by
  unfold setInsert
  split
  · exact h
  · next hmem => simp [List.map_append, List.Nodup.append, h, hmem]

theorem foldl_setInsert_nodup (l : List JSValue) :
    ∀ acc, (acc.map stringifyChars).Nodup →
      ((l.foldl setInsert acc).map stringifyChars).Nodup := by
  induction l with
  | nil => intro acc h; exact h
  | cons v l ih => intro acc h; exact ih _ (setInsert_map_nodup v h)

theorem jsSet_nodup (l : List JSValue) : ((jsSet l).map stringifyChars).Nodup :=
  foldl_setInsert_nodup l [] (by simp)

theorem foldl_setInsert_subset (l : List JSValue) :
    ∀ acc v, v ∈ l.foldl setInsert acc → v ∈ acc ∨ v ∈ l := by
  induction l with
  | nil => intro acc v h; exact Or.inl h
  | cons u l ih =>
      intro acc v h
      rcases ih _ v h with h1 | h1
      · unfold setInsert at h1
        split at h1
        · exact Or.inl h1
        · rcases List.mem_append.mp h1 with h2 | h2
          · exact Or.inl h2
          · simp at h2
            subst h2
            exact Or.inr (List.mem_cons_self _ _)
      · exact Or.inr (List.mem_cons_of_mem _ h1)

theorem jsSet_subset {l : List JSValue} {v : JSValue} (h : v ∈ jsSet l) : v ∈ l := by
  rcases foldl_setInsert_subset l [] v h with h1 | h1
  · simp at h1
  · exact h1

theorem foldl_setInsert_const (V : JSValue) :
    ∀ (l : List JSValue), (∀ u ∈ l, u = V) → l.foldl setInsert [V] = [V]
  | [], _ => rfl
  | u :: l, h => by
      have hu : u = V := h u (List.mem_cons_self _ _)
      subst hu
      rw [List.foldl_cons]
      have h1 : setInsert [u] u = [u] := by
        unfold setInsert
        rw [if_pos (by simp)]
      rw [h1]
      exact foldl_setInsert_const u l (fun x hx => h x (List.mem_cons_of_mem _ hx))

theorem jsSet_const {l : List JSValue} {V : JSValue} (hne : l ≠ [])
    (h : ∀ u ∈ l, u = V) : jsSet l = [V] := by
  cases l with
  | nil => exact absurd rfl hne
  | cons u l =>
      have hu : u = V := h u (List.mem_cons_self _ _)
      subst hu
      unfold jsSet
      rw [List.foldl_cons]
      have h1 : setInsert [] u = [u] := by
        unfold setInsert
        rw [if_neg (by simp)]
        rfl
      rw [h1]
      exact foldl_setInsert_const u l (fun x hx => h x (List.mem_cons_of_mem _ hx))

theorem two_mem_length {α : Type} {L : List α} {a b : α} (ha : a ∈ L) (hb : b ∈ L)
    (hab : a ≠ b) : 2 ≤ L.length := by
  cases L with
  | nil => simp at ha
  | cons x l =>
      cases l with
      | nil =>
          simp at ha hb
          subst ha
          subst hb
          exact absurd rfl hab
      | cons y l =>
          simp only [List.length_cons]
          omega

theorem jsSet_keys_perm {l1 l2 : List JSValue} (h : l1.Perm l2) :
    ((jsSet l1).map stringifyChars).Perm ((jsSet l2).map stringifyChars) := by
  rw [List.perm_ext_iff_of_nodup (jsSet_nodup l1) (jsSet_nodup l2)]
  intro s
  rw [jsSet_map_mem, jsSet_map_mem]
  exact (h.map stringifyChars).mem_iff

theorem jsSet_length_perm {l1 l2 : List JSValue} (h : l1.Perm l2) :
    (jsSet l1).length = (jsSet l2).length := by
  have := (jsSet_keys_perm h).length_eq
  simpa using this

theorem jsSet_singleton_perm {l1 l2 : List JSValue} (h : l1.Perm l2)
    {v w : JSValue} (h1 : jsSet l1 = [v]) (h2 : jsSet l2 = [w]) : v = w := by
  have hwmem : w ∈ l1 := by
    apply h.mem_iff.mpr
    apply jsSet_subset (l := l2)
    rw [h2]
    exact List.mem_singleton_self w
  have hkey : stringifyChars w ∈ (jsSet l1).map stringifyChars := by
    rw [jsSet_map_mem]
    exact List.mem_map_of_mem _ hwmem
  rw [h1] at hkey
  simp at hkey
  exact (stringifyChars_injective hkey).symm

theorem jsSet_perm_cases {l1 l2 : List JSValue} (h : l1.Perm l2) :
    (jsSet l1 = [] ∧ jsSet l2 = []) ∨
    (∃ v, jsSet l1 = [v] ∧ jsSet l2 = [v]) ∨
    (∃ a b t a2 b2 t2, jsSet l1 = a :: b :: t ∧ jsSet l2 = a2 :: b2 :: t2) := by
  have hlen := jsSet_length_perm h
  cases h1 : jsSet l1 with
  | nil =>
      left
      refine ⟨rfl, ?_⟩
      rw [h1] at hlen
      cases h2 : jsSet l2 with
      | nil => rfl
      | cons w t2 =>
          rw [h2] at hlen
          simp at hlen
  | cons v t1 =>
      cases t1 with
      | nil =>
          right
          left
          rw [h1] at hlen
          cases h2 : jsSet l2 with
          | nil =>
              rw [h2] at hlen
              simp at hlen
          | cons w t2 =>
              cases t2 with
              | nil => exact ⟨v, rfl, by rw [jsSet_singleton_perm h h1 h2]⟩
              | cons w2 t2 =>
                  rw [h2] at hlen
                  simp at hlen
      | cons v2 t1 =>
          right
          right
          rw [h1] at hlen
          cases h2 : jsSet l2 with
          | nil =>
              rw [h2] at hlen
              simp at hlen
          | cons w t2 =>
              cases t2 with
              | nil =>
                  rw [h2] at hlen
                  simp at hlen
              | cons w2 t2 => exact ⟨v, v2, t1, w, w2, t2, rfl, rfl⟩

/-! Helper characterizations of the usable results and the consensus
branches. -/

theorem mem_filterMap_usable {results : List Settled} {u : JSValue} :
    u ∈ results.filterMap usable ↔
      (Settled.val u ∈ results ∧ truthy u = true) := by
  rw [List.mem_filterMap]
  constructor
  · rintro ⟨r, hr, hu⟩
    cases r with
    | err => simp [usable] at hu
    | val v =>
        simp only [usable] at hu
        split at hu
        · next ht =>
            injection hu with hu
            subst hu
            exact ⟨hr, ht⟩
        · simp at hu
  · rintro ⟨hr, ht⟩
    exact ⟨.val u, hr, by simp [usable, ht]⟩

theorem filterMap_usable_eq_nil {results : List Settled}
    (h : ∀ v, Settled.val v ∈ results → truthy v = false) :
    results.filterMap usable = [] := by
  rw [List.filterMap_eq_nil_iff]
  intro r hr
  cases r with
  | err => rfl
  | val v => simp [usable, h v hr]

theorem exists_two_of_two_le {α : Type} {L : List α} (h : 2 ≤ L.length) :
    ∃ a b t, L = a :: b :: t := by
  cases L with
  | nil => simp at h
  | cons a l =>
      cases l with
      | nil => simp at h
      | cons b t => exact ⟨a, b, t, rfl⟩

theorem jsSet_two_le {L : List JSValue} {v w : JSValue} (hv : v ∈ L) (hw : w ∈ L)
    (hvw : v ≠ w) : 2 ≤ (jsSet L).length := by
  have hkv : stringifyChars v ∈ (jsSet L).map stringifyChars :=
    jsSet_map_mem.mpr (List.mem_map_of_mem _ hv)
  have hkw : stringifyChars w ∈ (jsSet L).map stringifyChars :=
    jsSet_map_mem.mpr (List.mem_map_of_mem _ hw)
  have hk : stringifyChars v ≠ stringifyChars w :=
    fun hh => hvw (stringifyChars_injective hh)
  have := two_mem_length hkv hkw hk
  simpa using this

/-! Helper lemmas about the constructor loop. -/

theorem isStr_true_iff (v : JSValue) : v.isStr = true ↔ ∃ u, v = .str u := by
  cases v <;> simp [JSValue.isStr]

theorem buildExplorer_error_of_nonstr (t : Int) (e : ExplorerSpec)
    (hbad : e.url.isStr = false) :
    MultiExplorer.buildExplorer t e = .error "URL must be a string" := by
  obtain ⟨url, ty⟩ := e
  cases url with
  | str s => simp [JSValue.isStr] at hbad
  | null => rfl
  | num n => rfl
  | info m t2 => rfl

theorem buildExplorer_ok_of_str (t : Int) (e : ExplorerSpec) {u : String}
    (hu : e.url = .str u) : ∃ a, MultiExplorer.buildExplorer t e = .ok a := by
  obtain ⟨url, ty⟩ := e
  change url = JSValue.str u at hu
  subst hu
  by_cases hty : ty = some "insight"
  · exact ⟨ChainInsight.make u t, by simp [MultiExplorer.buildExplorer, hty]⟩
  · exact ⟨Blockstream.make u t, by simp [MultiExplorer.buildExplorer, hty]⟩

theorem buildExplorer_unknown_type (t : Int) (e : ExplorerSpec) {u : String}
    (hu : e.url = .str u) (hty : ¬e.type = some "insight") :
    MultiExplorer.buildExplorer t e = .ok (Blockstream.make u t) := by
  obtain ⟨url, ty⟩ := e
  change url = JSValue.str u at hu
  change ¬ty = some "insight" at hty
  subst hu
  simp [MultiExplorer.buildExplorer, hty]

theorem mapM_buildExplorer_bad (t : Int) : ∀ (l : List ExplorerSpec),
    (∃ e ∈ l, e.url.isStr = false) →
    l.mapM (MultiExplorer.buildExplorer t) = .error "URL must be a string"
  | [], h => by simp at h
  | e :: l, h => by
      by_cases he : e.url.isStr = false
      · rw [List.mapM_cons, buildExplorer_error_of_nonstr t e he]
        rfl
      · have htrue : e.url.isStr = true := by
          cases hb : e.url.isStr
          · exact absurd hb he
          · rfl
        obtain ⟨u, hu⟩ := (isStr_true_iff _).mp htrue
        obtain ⟨a, ha⟩ := buildExplorer_ok_of_str t e hu
        have htail : ∃ e2 ∈ l, e2.url.isStr = false := by
          rcases h with ⟨e2, he2, hbad⟩
          rcases List.mem_cons.mp he2 with rfl | hmem
          · exact absurd hbad (by simp [htrue])
          · exact ⟨e2, hmem, hbad⟩
        rw [List.mapM_cons, ha, mapM_buildExplorer_bad t l htail]
        rfl

theorem mapM_buildExplorer_ok (t : Int) : ∀ (l : List ExplorerSpec),
    (∀ e ∈ l, e.url.isStr = true) →
    ∃ adapters, l.mapM (MultiExplorer.buildExplorer t) = Except.ok adapters
  | [], _ => ⟨[], rfl⟩
  | e :: l, h => by
      obtain ⟨u, hu⟩ := (isStr_true_iff _).mp (h e (List.mem_cons_self _ _))
      obtain ⟨a, ha⟩ := buildExplorer_ok_of_str t e hu
      obtain ⟨as, has⟩ :=
        mapM_buildExplorer_ok t l (fun x hx => h x (List.mem_cons_of_mem _ hx))
      exact ⟨a :: as, by rw [List.mapM_cons, ha, has]; rfl⟩

theorem mapM_buildExplorer_blockstream (t : Int) : ∀ (l : List ExplorerSpec),
    (∀ e ∈ l, e.url.isStr = true ∧ ¬e.type = some "insight") →
    ∃ adapters, l.mapM (MultiExplorer.buildExplorer t) = Except.ok adapters ∧
      ∀ a ∈ adapters, a.kind = .blockstream
  | [], _ => ⟨[], rfl, by simp⟩
  | e :: l, h => by
      obtain ⟨hstr, hty⟩ := h e (List.mem_cons_self _ _)
      obtain ⟨u, hu⟩ := (isStr_true_iff _).mp hstr
      have ha := buildExplorer_unknown_type t e hu hty
      obtain ⟨as, has, hkind⟩ :=
        mapM_buildExplorer_blockstream t l (fun x hx => h x (List.mem_cons_of_mem _ hx))
      refine ⟨Blockstream.make u t :: as, by rw [List.mapM_cons, ha, has]; rfl, ?_⟩
      intro a hmem
      rcases List.mem_cons.mp hmem with rfl | hmem
      · rfl
      · exact hkind a hmem

theorem mapM_defaultSpecs (t : Int) (urls : List String) :
    (defaultExplorerSpecs urls).mapM (MultiExplorer.buildExplorer t) =
      Except.ok (urls.map fun u => ChainInsight.make u t) := by
  induction urls with
  | nil => rfl
  | cons u urls ih =>
      show (ExplorerSpec.mk (.str u) (some "insight") ::
        defaultExplorerSpecs urls).mapM (MultiExplorer.buildExplorer t) = _
      rw [List.mapM_cons]
      have hb : MultiExplorer.buildExplorer t ⟨.str u, some "insight"⟩ =
          .ok (ChainInsight.make u t) := rfl
      rw [hb, ih]
      rfl

/-- Unfolding of the constructor on a present options object: the lets
and the match on the surrounding option are reduced. -/
theorem construct_some_eq (o : MultiOptions) :
    MultiExplorer.construct (some o) =
      (match (match o.explorers with
          | some l => if l.length > 1 then some l else none
          | none => none) with
        | some l => l.mapM (MultiExplorer.buildExplorer (o.timeout.getD 10))
        | none =>
            match publicChainInsightUrls (o.chain.getD "bitcoin") with
            | some urls =>
                (defaultExplorerSpecs urls).mapM
                  (MultiExplorer.buildExplorer (o.timeout.getD 10))
            | none =>
                .error "TypeError: cannot read the registry entry of an unknown chain") :=
  rfl

/-- The explicit explorer list is retained only when it has more than
one entry. -/
theorem construct_explicit_some (o : MultiOptions) (l : List ExplorerSpec)
    (hl : o.explorers = some l) (hlen : l.length > 1) :
    MultiExplorer.construct (some o) =
      l.mapM (MultiExplorer.buildExplorer (o.timeout.getD 10)) := by
  rw [construct_some_eq, hl]
  simp [if_pos hlen]

theorem construct_defaulted (o : MultiOptions)
    (hshort : o.explorers = none ∨ ∃ l, o.explorers = some l ∧ l.length ≤ 1) :
    MultiExplorer.construct (some o) =
      (match publicChainInsightUrls (o.chain.getD "bitcoin") with
        | some urls =>
            (defaultExplorerSpecs urls).mapM
              (MultiExplorer.buildExplorer (o.timeout.getD 10))
        | none => .error "TypeError: cannot read the registry entry of an unknown chain") := by
  rw [construct_some_eq]
  rcases hshort with h | ⟨l, hl, hlen⟩
  · rw [h]
  · rw [hl]
    show (match (if l.length > 1 then some l else none : Option (List ExplorerSpec)) with
      | some l2 => l2.mapM (MultiExplorer.buildExplorer (o.timeout.getD 10))
      | none =>
          match publicChainInsightUrls (o.chain.getD "bitcoin") with
          | some urls =>
              (defaultExplorerSpecs urls).mapM
                (MultiExplorer.buildExplorer (o.timeout.getD 10))
          | none =>
              .error "TypeError: cannot read the registry entry of an unknown chain") = _
    rw [if_neg (by omega)]

/-! The claims. -/

/-- C1 counterexample: with two distinct successful values, one falsy
and one truthy, the claim as stated demands a conflict rejection and
forbids resolving with a chosen value, but the aggregate resolves with
the truthy value. -/
theorem blockhash_mixed_falsy_resolves :
    MultiExplorer.blockhash "7"
        [Settled.val (JSValue.str ""), Settled.val (JSValue.str "a")] =
      .resolved (JSValue.str "a") := by rfl

/-- C1 (amended): for both aggregate queries the three-way consensus
rule holds over the distinct truthy values among successful outcomes:
no truthy success rejects with the no-usable-answer error, exactly one
distinct truthy success value resolves with that shared value, and two
or more distinct truthy success values reject with the conflict error
naming the query parameter, never resolving. -/
theorem consensus_three_way_rule (param : String) (results : List Settled) :
    ((∀ v, Settled.val v ∈ results → truthy v = false) →
      MultiExplorer.blockhash param results =
          .rejected ("No block height " ++ param ++ "found") ∧
        MultiExplorer.block param results =
          .rejected ("No block hash " ++ param ++ "found")) ∧
    (∀ V, truthy V = true → Settled.val V ∈ results →
      (∀ v, Settled.val v ∈ results → truthy v = true → v = V) →
      MultiExplorer.blockhash param results = .resolved V ∧
        MultiExplorer.block param results = .resolved V) ∧
    (∀ v w, Settled.val v ∈ results → Settled.val w ∈ results →
      truthy v = true → truthy w = true → v ≠ w →
      MultiExplorer.blockhash param results =
          .rejected ("Different block height " ++ param ++ "found") ∧
        MultiExplorer.block param results =
          .rejected ("Different block hash " ++ param ++ "found")) := by
  refine ⟨?_, ?_, ?_⟩
  · intro h
    have h0 := filterMap_usable_eq_nil h
    constructor <;> simp [MultiExplorer.blockhash, MultiExplorer.block, h0, jsSet]
  · intro V hV hmem hone
    have hne : results.filterMap usable ≠ [] :=
      List.ne_nil_of_mem (mem_filterMap_usable.mpr ⟨hmem, hV⟩)
    have hall : ∀ u ∈ results.filterMap usable, u = V := by
      intro u hu
      obtain ⟨hm, ht⟩ := mem_filterMap_usable.mp hu
      exact hone u hm ht
    have hjs := jsSet_const hne hall
    constructor <;> simp [MultiExplorer.blockhash, MultiExplorer.block, hjs]
  · intro v w hv hw htv htw hvw
    have h2 := jsSet_two_le (mem_filterMap_usable.mpr ⟨hv, htv⟩)
      (mem_filterMap_usable.mpr ⟨hw, htw⟩) hvw
    obtain ⟨a, b, tl, hjs⟩ := exists_two_of_two_le h2
    constructor <;> simp [MultiExplorer.blockhash, MultiExplorer.block, hjs]

/-- Concrete instantiation of the three branches of the consensus
rule. -/
theorem consensus_three_way_rule_witness :
    MultiExplorer.blockhash "9" [Settled.err] =
        .rejected ("No block height " ++ "9" ++ "found") ∧
      MultiExplorer.blockhash "9" [Settled.val (JSValue.str "a"), Settled.err] =
        .resolved (JSValue.str "a") ∧
      MultiExplorer.blockhash "9"
          [Settled.val (JSValue.str "a"), Settled.val (JSValue.str "b")] =
        .rejected ("Different block height " ++ "9" ++ "found") :=
  ⟨((consensus_three_way_rule "9" [Settled.err]).1
      (by intro v hv; simp at hv)).1,
   ((consensus_three_way_rule "9" [Settled.val (JSValue.str "a"), Settled.err]).2.1
      (JSValue.str "a") (by decide) (by decide)
      (by intro v hv ht; simpa using hv)).1,
   ((consensus_three_way_rule "9"
        [Settled.val (JSValue.str "a"), Settled.val (JSValue.str "b")]).2.2
      (JSValue.str "a") (JSValue.str "b") (by decide) (by decide)
      (by decide) (by decide) (by decide)).1⟩

/-- C2 counterexample: one adapter fails and the only succeeding
adapter returns the falsy empty string; the claim as stated demands the
aggregate resolve with that shared value, but the code rejects with the
no-usable-answer error. -/
theorem blockhash_falsy_agreement_rejects :
    MultiExplorer.blockhash "0" [Settled.err, Settled.val (JSValue.str "")] =
      .rejected ("No block height " ++ "0" ++ "found") := by rfl

/-- C2 (amended): per-adapter failures are absorbed as soft failures:
whenever every settled outcome is either a failure or a success with
the same truthy value V and at least one success is present, both
aggregate queries resolve with V. -/
theorem aggregate_partial_failure_tolerance (height hash : String)
    (results : List Settled) (V : JSValue) (hV : truthy V = true)
    (hall : ∀ r ∈ results, r = Settled.val V ∨ r = Settled.err)
    (hsucc : Settled.val V ∈ results) :
    MultiExplorer.blockhash height results = .resolved V ∧
      MultiExplorer.block hash results = .resolved V := by
  have hne : results.filterMap usable ≠ [] :=
    List.ne_nil_of_mem (mem_filterMap_usable.mpr ⟨hsucc, hV⟩)
  have hallu : ∀ u ∈ results.filterMap usable, u = V := by
    intro u hu
    obtain ⟨hm, ht⟩ := mem_filterMap_usable.mp hu
    rcases hall _ hm with h1 | h1
    · injection h1
    · simp at h1
  have hjs := jsSet_const hne hallu
  constructor <;> simp [MultiExplorer.blockhash, MultiExplorer.block, hjs]

/-- Concrete instantiation: two failing adapters and one success. -/
theorem aggregate_partial_failure_tolerance_witness :
    MultiExplorer.blockhash "3"
        [Settled.err, Settled.val (JSValue.str "h"), Settled.err] =
      .resolved (JSValue.str "h") :=
  (aggregate_partial_failure_tolerance "3" "x"
    [Settled.err, Settled.val (JSValue.str "h"), Settled.err] (JSValue.str "h")
    (by decide) (by decide) (by decide)).1

/-- C3: the aggregate decision of both queries is a pure function of
the multiset of settled outcomes: permuting the settled per-adapter
outcomes changes neither the branch taken nor the resolved value. -/
theorem aggregate_decision_perm_invariant (param : String) {r1 r2 : List Settled}
    (h : r1.Perm r2) :
    MultiExplorer.blockhash param r1 = MultiExplorer.blockhash param r2 ∧
      MultiExplorer.block param r1 = MultiExplorer.block param r2 := by
  have hperm := h.filterMap usable
  rcases jsSet_perm_cases hperm with ⟨h1, h2⟩ | ⟨v, h1, h2⟩ |
    ⟨a, b, tl, a2, b2, tl2, h1, h2⟩ <;>
    exact ⟨by simp [MultiExplorer.blockhash, h1, h2],
      by simp [MultiExplorer.block, h1, h2]⟩

/-- Concrete instantiation on a transposed pair of outcomes. -/
theorem aggregate_decision_perm_invariant_witness :
    MultiExplorer.blockhash "0" [Settled.val (JSValue.str "a"), Settled.err] =
      MultiExplorer.blockhash "0" [Settled.err, Settled.val (JSValue.str "a")] :=
  (aggregate_decision_perm_invariant "0" (by decide)).1

/-- C10: a falsy successful outcome is discarded exactly as a failed
one: replacing it by a failure changes neither aggregate result, and
when every adapter succeeds with a falsy value both queries reject with
the no-usable-answer error instead of resolving. -/
theorem falsy_success_discarded (param : String) :
    (∀ (l1 l2 : List Settled) (v : JSValue), truthy v = false →
      MultiExplorer.blockhash param (l1 ++ Settled.val v :: l2) =
          MultiExplorer.blockhash param (l1 ++ Settled.err :: l2) ∧
        MultiExplorer.block param (l1 ++ Settled.val v :: l2) =
          MultiExplorer.block param (l1 ++ Settled.err :: l2)) ∧
    (∀ results : List Settled,
      (∀ r ∈ results, ∃ v, r = Settled.val v ∧ truthy v = false) →
      MultiExplorer.blockhash param results =
          .rejected ("No block height " ++ param ++ "found") ∧
        MultiExplorer.block param results =
          .rejected ("No block hash " ++ param ++ "found")) := by
  constructor
  · intro l1 l2 v hv
    have hfm : (l1 ++ Settled.val v :: l2).filterMap usable =
        (l1 ++ Settled.err :: l2).filterMap usable := by
      simp [List.filterMap_append, List.filterMap_cons, usable, hv]
    constructor <;> simp [MultiExplorer.blockhash, MultiExplorer.block, hfm]
  · intro results hall
    have h0 : results.filterMap usable = [] := by
      apply filterMap_usable_eq_nil
      intro v hv
      obtain ⟨w, hw, ht⟩ := hall _ hv
      injection hw with hw
      subst hw
      exact ht
    constructor <;> simp [MultiExplorer.blockhash, MultiExplorer.block, h0, jsSet]

/-- Concrete instantiation: a falsy zero behaves as a failure, and an
all-falsy run rejects. -/
theorem falsy_success_discarded_witness :
    MultiExplorer.blockhash "5"
        ([] ++ Settled.val (JSValue.num 0) :: [Settled.val (JSValue.str "a")]) =
        MultiExplorer.blockhash "5"
          ([] ++ Settled.err :: [Settled.val (JSValue.str "a")]) ∧
      MultiExplorer.blockhash "5" [Settled.val (JSValue.str "")] =
        .rejected ("No block height " ++ "5" ++ "found") :=
  ⟨((falsy_success_discarded "5").1 [] [Settled.val (JSValue.str "a")]
      (JSValue.num 0) (by decide)).1,
   ((falsy_success_discarded "5").2 [Settled.val (JSValue.str "")]
      (by intro r hr; simp at hr; exact ⟨JSValue.str "", hr, by decide⟩)).1⟩

/-- C4: the family-A and family-B normalizers, fed the same logical
merkle-root and timestamp pair under their respective field names,
produce the identical canonical block info. -/
theorem normalizers_agree_on_same_pair (m : String) (t : Int)
    (hm : m ≠ "") (ht : t ≠ 0) :
    ChainInsight.parseBlockInfo (some ⟨some m, some t⟩) = .ok ⟨m, t⟩ ∧
      Blockstream.parseBlockInfo (some ⟨some m, some t⟩) = .ok ⟨m, t⟩ := by
  have hc : ¬(m = "" ∨ t = 0) := by
    rintro (h | h)
    · exact hm h
    · exact ht h
  constructor
  · show (if m = "" ∨ t = 0 then Except.error "Insight response error body "
        else Except.ok (BlockInfo.mk m t)) = Except.ok (BlockInfo.mk m t)
    rw [if_neg hc]
  · show (if m = "" ∨ t = 0 then Except.error "Blockstream response error body "
        else Except.ok (BlockInfo.mk m t)) = Except.ok (BlockInfo.mk m t)
    rw [if_neg hc]

/-- Concrete instantiation on the genesis-block pair. -/
theorem normalizers_agree_on_same_pair_witness :
    ChainInsight.parseBlockInfo
        (some ⟨some "4a5e1e4baab89f3a32518a88c31bc87f618f76673e2cc77ab2127b7afdeda33b",
          some 1231006505⟩) =
      .ok ⟨"4a5e1e4baab89f3a32518a88c31bc87f618f76673e2cc77ab2127b7afdeda33b",
        1231006505⟩ :=
  (normalizers_agree_on_same_pair _ _ (by decide) (by decide)).1

/-- C5: neither family's normalizer ever returns a partial value: on an
absent body each fails with its malformed-response error; each succeeds
exactly when both of its fields are present and truthy, and then the
returned block info carries exactly the two body fields. -/
theorem normalizeInfo_complete_or_error :
    (ChainInsight.parseBlockInfo none = .error "Insight response error body ") ∧
    (Blockstream.parseBlockInfo none = .error "Blockstream response error body ") ∧
    (∀ (b : InsightInfoBody) (info : BlockInfo),
      ChainInsight.parseBlockInfo (some b) = .ok info ↔
        (b.merkleroot = some info.merkleroot ∧ b.time = some info.time ∧
          info.merkleroot ≠ "" ∧ info.time ≠ 0)) ∧
    (∀ b : InsightInfoBody,
      (b.merkleroot = none ∨ b.merkleroot = some "" ∨ b.time = none ∨
        b.time = some 0) →
      ChainInsight.parseBlockInfo (some b) = .error "Insight response error body ") ∧
    (∀ (b : BlockstreamInfoBody) (info : BlockInfo),
      Blockstream.parseBlockInfo (some b) = .ok info ↔
        (b.merkle_root = some info.merkleroot ∧ b.timestamp = some info.time ∧
          info.merkleroot ≠ "" ∧ info.time ≠ 0)) ∧
    (∀ b : BlockstreamInfoBody,
      (b.merkle_root = none ∨ b.merkle_root = some "" ∨ b.timestamp = none ∨
        b.timestamp = some 0) →
      Blockstream.parseBlockInfo (some b) =
        .error "Blockstream response error body ") := by
  refine ⟨rfl, rfl, ?_, ?_, ?_, ?_⟩
  · intro b info
    obtain ⟨mr, ti⟩ := b
    obtain ⟨im, it⟩ := info
    cases mr with
    | none => simp [ChainInsight.parseBlockInfo]
    | some m =>
        cases ti with
        | none => simp [ChainInsight.parseBlockInfo]
        | some t =>
            by_cases hft : m = "" ∨ t = 0
            · show (if m = "" ∨ t = 0 then Except.error "Insight response error body "
                  else Except.ok (BlockInfo.mk m t)) = Except.ok (BlockInfo.mk im it) ↔ _
              rw [if_pos hft]
              constructor
              · intro hh
                exact absurd hh (by simp)
              · rintro ⟨h1, h2, h3, h4⟩
                injection h1 with h1
                injection h2 with h2
                subst h1
                subst h2
                rcases hft with hf | hf
                · exact absurd hf h3
                · exact absurd hf h4
            · show (if m = "" ∨ t = 0 then Except.error "Insight response error body "
                  else Except.ok (BlockInfo.mk m t)) = Except.ok (BlockInfo.mk im it) ↔ _
              rw [if_neg hft]
              push_neg at hft
              constructor
              · intro hh
                injection hh with hh
                injection hh with hh1 hh2
                subst hh1
                subst hh2
                exact ⟨rfl, rfl, hft.1, hft.2⟩
              · rintro ⟨h1, h2, h3, h4⟩
                injection h1 with h1
                injection h2 with h2
                rw [h1, h2]
  · intro b hb
    obtain ⟨mr, ti⟩ := b
    rcases hb with h | h | h | h
    · have h2 : mr = none := h
      subst h2
      cases ti <;> rfl
    · have h2 : mr = some "" := h
      subst h2
      cases ti with
      | none => rfl
      | some t =>
          show (if "" = "" ∨ t = 0 then Except.error "Insight response error body "
            else Except.ok (BlockInfo.mk "" t)) =
              Except.error "Insight response error body "
          rw [if_pos (Or.inl rfl)]
    · have h2 : ti = none := h
      subst h2
      cases mr <;> rfl
    · have h2 : ti = some 0 := h
      subst h2
      cases mr with
      | none => rfl
      | some m =>
          show (if m = "" ∨ (0 : Int) = 0 then Except.error "Insight response error body "
            else Except.ok (BlockInfo.mk m 0)) =
              Except.error "Insight response error body "
          rw [if_pos (Or.inr rfl)]
  · intro b info
    obtain ⟨mr, ti⟩ := b
    obtain ⟨im, it⟩ := info
    cases mr with
    | none => simp [Blockstream.parseBlockInfo]
    | some m =>
        cases ti with
        | none => simp [Blockstream.parseBlockInfo]
        | some t =>
            by_cases hft : m = "" ∨ t = 0
            · show (if m = "" ∨ t = 0 then Except.error "Blockstream response error body "
                  else Except.ok (BlockInfo.mk m t)) = Except.ok (BlockInfo.mk im it) ↔ _
              rw [if_pos hft]
              constructor
              · intro hh
                exact absurd hh (by simp)
              · rintro ⟨h1, h2, h3, h4⟩
                injection h1 with h1
                injection h2 with h2
                subst h1
                subst h2
                rcases hft with hf | hf
                · exact absurd hf h3
                · exact absurd hf h4
            · show (if m = "" ∨ t = 0 then Except.error "Blockstream response error body "
                  else Except.ok (BlockInfo.mk m t)) = Except.ok (BlockInfo.mk im it) ↔ _
              rw [if_neg hft]
              push_neg at hft
              constructor
              · intro hh
                injection hh with hh
                injection hh with hh1 hh2
                subst hh1
                subst hh2
                exact ⟨rfl, rfl, hft.1, hft.2⟩
              · rintro ⟨h1, h2, h3, h4⟩
                injection h1 with h1
                injection h2 with h2
                rw [h1, h2]
  · intro b hb
    obtain ⟨mr, ti⟩ := b
    rcases hb with h | h | h | h
    · have h2 : mr = none := h
      subst h2
      cases ti <;> rfl
    · have h2 : mr = some "" := h
      subst h2
      cases ti with
      | none => rfl
      | some t =>
          show (if "" = "" ∨ t = 0 then Except.error "Blockstream response error body "
            else Except.ok (BlockInfo.mk "" t)) =
              Except.error "Blockstream response error body "
          rw [if_pos (Or.inl rfl)]
    · have h2 : ti = none := h
      subst h2
      cases mr <;> rfl
    · have h2 : ti = some 0 := h
      subst h2
      cases mr with
      | none => rfl
      | some m =>
          show (if m = "" ∨ (0 : Int) = 0 then Except.error "Blockstream response error body "
            else Except.ok (BlockInfo.mk m 0)) =
              Except.error "Blockstream response error body "
          rw [if_pos (Or.inr rfl)]

/-- Concrete instantiation: a body missing its timestamp fails, and a
complete body round-trips both fields. -/
theorem normalizeInfo_complete_or_error_witness :
    ChainInsight.parseBlockInfo (some ⟨some "abc", none⟩) =
        .error "Insight response error body " ∧
      Blockstream.parseBlockInfo (some ⟨some "abc", some 7⟩) = .ok ⟨"abc", 7⟩ :=
  ⟨normalizeInfo_complete_or_error.2.2.2.1 ⟨some "abc", none⟩
      (Or.inr (Or.inr (Or.inl rfl))),
   (normalizeInfo_complete_or_error.2.2.2.2.1 ⟨some "abc", some 7⟩ ⟨"abc", 7⟩).mpr
      ⟨rfl, rfl, by decide, by decide⟩⟩

/-- C6: when the explorers option is absent or has fewer than two
entries, the aggregator is built from the registry URLs of the
configured chain (default bitcoin), each bound to the insight family. -/
theorem construct_default_registry_insight (o : MultiOptions) (urls : List String)
    (hshort : o.explorers = none ∨ ∃ l, o.explorers = some l ∧ l.length ≤ 1)
    (hreg : publicChainInsightUrls (o.chain.getD "bitcoin") = some urls) :
    MultiExplorer.construct (some o) =
        .ok (urls.map fun u => ChainInsight.make u (o.timeout.getD 10)) ∧
      ∀ a ∈ urls.map fun u => ChainInsight.make u (o.timeout.getD 10),
        a.kind = .insight := by
  constructor
  · rw [construct_defaulted o hshort, hreg]
    exact mapM_defaultSpecs _ _
  · intro a ha
    simp only [List.mem_map] at ha
    obtain ⟨u, hu, rfl⟩ := ha
    rfl

/-- Concrete instantiation: an empty options object yields the five
bitcoin registry adapters, all insight, with the default timeout. -/
theorem construct_default_registry_insight_witness :
    MultiExplorer.construct (some ⟨none, none, none⟩) =
      .ok ((["https://insight.bitpay.com/api",
             "https://btc-bitcore1.trezor.io/api",
             "https://btc-bitcore4.trezor.io/api",
             "https://blockexplorer.com/api",
             "https://bitcore.schmoock.net/insight-api"] : List String).map
        fun u => ChainInsight.make u 10) :=
  (construct_default_registry_insight ⟨none, none, none⟩ _ (Or.inl rfl) rfl).1

/-- C7 counterexample: an options object whose single explorer spec has
a numeric url does not fail construction: a list with fewer than two
entries is discarded in favour of the defaults, so the invalid spec is
never validated. -/
theorem construct_single_nonstring_url_ok :
    MultiExplorer.construct (some ⟨none, some [⟨JSValue.num 42, none⟩], none⟩) =
      .ok ((["https://insight.bitpay.com/api",
             "https://btc-bitcore1.trezor.io/api",
             "https://btc-bitcore4.trezor.io/api",
             "https://blockexplorer.com/api",
             "https://bitcore.schmoock.net/insight-api"] : List String).map
        fun u => ChainInsight.make u 10) := by rfl

/-- C7 (amended): when the provided explorers list is actually used
(at least two entries), any spec with a non-string url makes
construction fail immediately with the TypeError message. -/
theorem construct_nonstring_url_error (o : MultiOptions) (l : List ExplorerSpec)
    (hl : o.explorers = some l) (hlen : l.length > 1)
    (hbad : ∃ e ∈ l, e.url.isStr = false) :
    MultiExplorer.construct (some o) = .error "URL must be a string" := by
  rw [construct_explicit_some o l hl hlen]
  exact mapM_buildExplorer_bad _ l hbad

/-- Concrete instantiation: a numeric url in a two-entry list fails. -/
theorem construct_nonstring_url_error_witness :
    MultiExplorer.construct (some ⟨none,
        some [⟨JSValue.str "https://a", some "insight"⟩, ⟨JSValue.num 7, none⟩],
        none⟩) =
      .error "URL must be a string" :=
  construct_nonstring_url_error _ _ rfl (by decide) (by decide)

/-- C8 counterexample: two specs whose urls are the empty string pass
the type-only validation and construction succeeds. -/
theorem construct_empty_string_url_ok :
    MultiExplorer.construct (some ⟨none,
        some [⟨JSValue.str "", some "insight"⟩, ⟨JSValue.str "", some "insight"⟩],
        none⟩) =
      .ok [ChainInsight.make "" 10, ChainInsight.make "" 10] := by rfl

/-- C8 (amended): construction validates only that each url is a
string: any used list all of whose urls are strings, empty strings
included, is accepted rather than rejected. -/
theorem construct_string_urls_accepted (o : MultiOptions) (l : List ExplorerSpec)
    (hl : o.explorers = some l) (hlen : l.length > 1)
    (hstr : ∀ e ∈ l, e.url.isStr = true) :
    ∃ adapters, MultiExplorer.construct (some o) = .ok adapters := by
  rw [construct_explicit_some o l hl hlen]
  exact mapM_buildExplorer_ok _ l hstr

/-- Concrete instantiation: an empty-string url is accepted. -/
theorem construct_string_urls_accepted_witness :
    ∃ adapters, MultiExplorer.construct (some ⟨none,
        some [⟨JSValue.str "", some "insight"⟩, ⟨JSValue.str "x", none⟩],
        none⟩) =
      .ok adapters :=
  construct_string_urls_accepted _ _ rfl (by decide) (by decide)

/-- C9 counterexample: an unknown explorer type is accepted and the
spec is silently bound to the blockstream family; construction does not
fail. -/
theorem construct_unknown_type_ok :
    MultiExplorer.construct (some ⟨none,
        some [⟨JSValue.str "https://a", some "foobar"⟩,
              ⟨JSValue.str "https://b", some "foobar"⟩], none⟩) =
      .ok [Blockstream.make "https://a" 10, Blockstream.make "https://b" 10] := by rfl

/-- C9 (amended): a used spec list whose entries all have string urls
and a type other than insight constructs successfully, every resulting
adapter silently bound to the blockstream family. -/
theorem construct_unknown_type_blockstream (o : MultiOptions) (l : List ExplorerSpec)
    (hl : o.explorers = some l) (hlen : l.length > 1)
    (hspec : ∀ e ∈ l, e.url.isStr = true ∧ ¬e.type = some "insight") :
    ∃ adapters, MultiExplorer.construct (some o) = .ok adapters ∧
      ∀ a ∈ adapters, a.kind = .blockstream := by
  rw [construct_explicit_some o l hl hlen]
  exact mapM_buildExplorer_blockstream _ l hspec

/-- Concrete instantiation: two unknown-type specs construct as
blockstream adapters. -/
theorem construct_unknown_type_blockstream_witness :
    ∃ adapters, MultiExplorer.construct (some ⟨none,
        some [⟨JSValue.str "https://a", some "foobar"⟩,
              ⟨JSValue.str "https://b", none⟩], none⟩) =
      .ok adapters ∧ ∀ a ∈ adapters, a.kind = .blockstream :=
  construct_unknown_type_blockstream _ _ rfl (by decide) (by decide)

end ChainExplorer
